import Mathlib

/-
Verification development for the multi-ai-discussion debate orchestration
engine.  The definitions below are a shallow embedding of the TypeScript
sources: `DebateOrchestrator.runDebate`, `RoundManager`, `Moderator` and
`Synthesizer`, together with the `JSON.parse`-based defensive parsing used by
the moderator.  External chat-completion calls are modelled by explicit
oracle parameters describing the outcome of each call.
-/

set_option maxRecDepth 4000
set_option exponentiation.threshold 1100

namespace Debate

/-- JavaScript numbers as relevant to this code base: a finite value
(idealised as a rational), the two infinities, and NaN.  `Math.max`/`Math.min`
propagate NaN, which the embedding reproduces. -/
inductive JsNum where
  | fin (q : ℚ)
  | posInf
  | negInf
  | nan
deriving DecidableEq, Repr

/-- Numbers producible by `JSON.parse`: the JSON grammar has finite decimal
literals only, which evaluate to a finite double or overflow to an infinity —
never to NaN. -/
inductive JNum where
  | fin (q : ℚ)
  | posInf
  | negInf
deriving DecidableEq, Repr

def JNum.toJs : JNum → JsNum
  | JNum.fin q => JsNum.fin q
  | JNum.posInf => JsNum.posInf
  | JNum.negInf => JsNum.negInf

/-- JSON values as produced by `JSON.parse`. -/
inductive JVal where
  | jnull
  | jbool (b : Bool)
  | jnum (x : JNum)
  | jstr (s : String)
  | jarr (xs : List JVal)
  | jobj (kvs : List (String × JVal))

def lbraceC : Char := Char.ofNat 123

def rbraceC : Char := Char.ofNat 125

def isWsChar (c : Char) : Bool := c = ' ' || c = '\t' || c = '\n' || c = '\r'

def skipWsL : List Char → List Char
  | [] => []
  | c :: t => if isWsChar c then skipWsL t else c :: t

def trimL (cs : List Char) : List Char := cs.dropWhile isWsChar

/-- JavaScript `String.prototype.trim` (restricted to the ASCII whitespace
that occurs in this code base). -/
def jsTrim (s : String) : String := String.mk ((trimL (trimL s.data).reverse).reverse)

/-- Substring occurrence on character lists, modelling `String.includes`. -/
def listInfix (p : List Char) : List Char → Bool
  | [] => p.isEmpty
  | c :: t => p.isPrefixOf (c :: t) || listInfix p t

/-- JavaScript `a.includes(b)`. -/
def strContains (s p : String) : Bool := listInfix p.data s.data

def digitVal (c : Char) : Nat := c.toNat - 48

def takeDigitsL : List Char → List Char × List Char
  | [] => ([], [])
  | c :: t =>
    if c.isDigit then
      let r := takeDigitsL t
      (c :: r.1, r.2)
    else ([], c :: t)

def digitsToNat (ds : List Char) : Nat := ds.foldl (fun a c => a * 10 + digitVal c) 0

/-- Fractional part of a JSON number literal as (digits value, digit count);
both zero when no `.` follows. -/
def parseFracPart : List Char → Option (Nat × Nat × List Char)
  | '.' :: t =>
    let p := takeDigitsL t
    if p.1.isEmpty then none else some (digitsToNat p.1, p.1.length, p.2)
  | cs => some (0, 0, cs)

/-- Exponent part of a JSON number literal: (negative?, magnitude, rest). -/
def parseExpPart : List Char → Option (Bool × Nat × List Char)
  | [] => some (false, 0, [])
  | c :: t =>
    if c = 'e' || c = 'E' then
      match t with
      | '-' :: u =>
        let p := takeDigitsL u
        if p.1.isEmpty then none else some (true, digitsToNat p.1, p.2)
      | '+' :: u =>
        let p := takeDigitsL u
        if p.1.isEmpty then none else some (false, digitsToNat p.1, p.2)
      | u =>
        let p := takeDigitsL u
        if p.1.isEmpty then none else some (false, digitsToNat p.1, p.2)
    else some (false, 0, c :: t)

/-- Integer part of a JSON number literal: `0` or a nonzero digit followed by
digits (JSON rejects leading zeros). -/
def parseIntPart : List Char → Option (Nat × List Char)
  | [] => none
  | c :: t =>
    if c = '0' then some (0, t)
    else if c.isDigit then
      let p := takeDigitsL (c :: t)
      some (digitsToNat p.1, p.2)
    else none

/-- Overflow threshold of IEEE doubles: literals at least this large become
`Infinity` under `JSON.parse`. -/
def dblOverflowQ : ℚ := mkRat (Int.ofNat (2 ^ 1024)) 1

def mkNegRat (neg : Bool) (num den : Nat) : ℚ :=
  mkRat (if neg then -(Int.ofNat num) else Int.ofNat num) den

def toJNum (q : ℚ) : JNum :=
  if dblOverflowQ ≤ q then JNum.posInf
  else if q ≤ mkNegRat true (2 ^ 1024) 1 then JNum.negInf
  else JNum.fin q

/-- A JSON number literal evaluated to an exact rational, assembled with
integer arithmetic only. -/
def parseNumberQ (cs : List Char) : Option (ℚ × List Char) :=
  let sp : Bool × List Char := match cs with
    | '-' :: t => (true, t)
    | _ => (false, cs)
  match parseIntPart sp.2 with
  | none => none
  | some (ip, r1) =>
    match parseFracPart r1 with
    | none => none
    | some (fracN, fracLen, r2) =>
      match parseExpPart r2 with
      | none => none
      | some (eneg, e, r3) =>
        let mant : Nat := ip * 10 ^ fracLen + fracN
        let num : Nat := if eneg then mant else mant * 10 ^ e
        let den : Nat := if eneg then 10 ^ fracLen * 10 ^ e else 10 ^ fracLen
        some (mkNegRat sp.1 num den, r3)

def hexVal (c : Char) : Option Nat :=
  if c.isDigit then some (c.toNat - 48)
  else if 'a' ≤ c && c ≤ 'f' then some (c.toNat - 87)
  else if 'A' ≤ c && c ≤ 'F' then some (c.toNat - 55)
  else none

/-- Body of a JSON string after the opening quote; returns the decoded
content and the remainder after the closing quote. -/
def parseStringBody : List Char → List Char → Option (String × List Char)
  | [], _ => none
  | '"' :: t, acc => some (String.mk acc.reverse, t)
  | '\\' :: rest, acc =>
    match rest with
    | [] => none
    | e :: t =>
      if e = '"' then parseStringBody t ('"' :: acc)
      else if e = '\\' then parseStringBody t ('\\' :: acc)
      else if e = '/' then parseStringBody t ('/' :: acc)
      else if e = 'b' then parseStringBody t (Char.ofNat 8 :: acc)
      else if e = 'f' then parseStringBody t (Char.ofNat 12 :: acc)
      else if e = 'n' then parseStringBody t ('\n' :: acc)
      else if e = 'r' then parseStringBody t ('\r' :: acc)
      else if e = 't' then parseStringBody t ('\t' :: acc)
      else if e = 'u' then
        match t with
        | h1 :: h2 :: h3 :: h4 :: u =>
          match hexVal h1, hexVal h2, hexVal h3, hexVal h4 with
          | some a, some b, some c, some d =>
            parseStringBody u (Char.ofNat (((a * 16 + b) * 16 + c) * 16 + d) :: acc)
          | _, _, _, _ => none
        | _ => none
      else none
  | c :: t, acc => if c.toNat < 32 then none else parseStringBody t (c :: acc)

/-- Parser modes: a single value, the members of an object after `\x7b`, or
the items of an array after `[`. -/
inductive PMode where
  | pval
  | pobj (first : Bool) (acc : List (String × JVal))
  | parr (first : Bool) (acc : List JVal)

/-- Recursive-descent JSON parser with explicit fuel (structural, so that it
evaluates inside the kernel). -/
def parseP : Nat → PMode → List Char → Option (JVal × List Char)
  | 0, _, _ => none
  | Nat.succ f, PMode.pval, cs =>
    match skipWsL cs with
    | [] => none
    | c :: rest =>
      if c = 'n' then
        match rest with
        | 'u' :: 'l' :: 'l' :: t => some (JVal.jnull, t)
        | _ => none
      else if c = 't' then
        match rest with
        | 'r' :: 'u' :: 'e' :: t => some (JVal.jbool true, t)
        | _ => none
      else if c = 'f' then
        match rest with
        | 'a' :: 'l' :: 's' :: 'e' :: t => some (JVal.jbool false, t)
        | _ => none
      else if c = '"' then
        match parseStringBody rest [] with
        | some (s, t) => some (JVal.jstr s, t)
        | none => none
      else if c = lbraceC then parseP f (PMode.pobj true []) rest
      else if c = '[' then parseP f (PMode.parr true []) rest
      else if c = '-' || c.isDigit then
        match parseNumberQ (c :: rest) with
        | some (q, t) => some (JVal.jnum (toJNum q), t)
        | none => none
      else none
  | Nat.succ f, PMode.pobj first acc, cs =>
    match skipWsL cs with
    | [] => none
    | c :: rest =>
      if first && c = rbraceC then some (JVal.jobj [], rest)
      else if c = '"' then
        match parseStringBody rest [] with
        | none => none
        | some (k, t1) =>
          match skipWsL t1 with
          | ':' :: t2 =>
            match parseP f PMode.pval t2 with
            | none => none
            | some (v, t3) =>
              match skipWsL t3 with
              | [] => none
              | d :: t4 =>
                if d = ',' then parseP f (PMode.pobj false (acc ++ [(k, v)])) t4
                else if d = rbraceC then some (JVal.jobj (acc ++ [(k, v)]), t4)
                else none
          | _ => none
      else none
  | Nat.succ f, PMode.parr first acc, cs =>
    match skipWsL cs with
    | [] => none
    | c :: rest =>
      if first && c = ']' then some (JVal.jarr [], rest)
      else
        match parseP f PMode.pval (c :: rest) with
        | none => none
        | some (v, t1) =>
          match skipWsL t1 with
          | ',' :: t2 => parseP f (PMode.parr false (acc ++ [v])) t2
          | ']' :: t2 => some (JVal.jarr (acc ++ [v]), t2)
          | _ => none

/-- `JSON.parse` on a character list: one value, then only trailing
whitespace is allowed. -/
def jsonParseL (cs : List Char) : Option JVal :=
  match parseP (cs.length + 1) PMode.pval cs with
  | some (v, rest) => if (skipWsL rest).isEmpty then some v else none
  | none => none

/-- Property lookup on a parsed JSON object; for duplicate keys the later
member wins, as in JavaScript. -/
def getFieldJ (kvs : List (String × JVal)) (k : String) : Option JVal :=
  (kvs.reverse.find? (fun kv => kv.1 == k)).map (fun kv => kv.2)

/-- From `src/debate/session.ts`: the moderator verdict stored on rounds and
sessions. -/
structure ConvergenceAssessment where
  isConverged : Bool
  confidenceScore : JsNum
  reasoning : String
deriving DecidableEq, Repr

/-- From `src/debate/session.ts`: one agent reply inside a round.  The
`Date` timestamp is abstracted to a number supplied by the call oracle. -/
structure AgentResponse where
  model : String
  content : String
  timestamp : Nat
  error : Option String
deriving DecidableEq, Repr

/-- From `src/debate/session.ts`. -/
structure DebateRound where
  roundNumber : Nat
  responses : List AgentResponse
  convergenceCheck : Option ConvergenceAssessment
deriving DecidableEq, Repr

/-- From `src/debate/session.ts`. -/
inductive DebateStatus where
  | pending
  | in_progress
  | converged
  | max_rounds_reached
  | completed
deriving DecidableEq, Repr

/-- From `src/debate/config.ts`.  `maxRounds` is a positive integer and the
threshold a rational, per the validated configuration contract. -/
structure DebateConfig where
  topic : String
  models : List String
  maxRounds : Nat
  convergenceThreshold : ℚ
  moderatorModel : String
  synthesizerModel : String
deriving DecidableEq, Repr

/-- From `src/debate/session.ts`. -/
structure DebateSession where
  id : String
  config : DebateConfig
  rounds : List DebateRound
  status : DebateStatus
  finalAnswer : Option String
  convergenceAssessment : Option ConvergenceAssessment
deriving DecidableEq, Repr

/-- From `src/debate/orchestrator.ts`. -/
structure DebateResult where
  session : DebateSession
  finalAnswer : String
  totalRounds : Nat
  convergenceAchieved : Bool
deriving DecidableEq, Repr

def AVAILABLE_MODELS : List String :=
  ["deepseek", "supermind-agent-v1", "gemini-2.5-pro", "gpt-5", "grok-4-fast"]

/-- From `src/debate/config.ts` (`validateDebateConfig`), specialised to a
fully-typed config: topic non-whitespace, at least two known participant
models, positive maxRounds, threshold in [0,1]; an empty moderator or
synthesizer model name is skipped by the falsy check in the source. -/
def validateDebateConfigOk (c : DebateConfig) : Bool :=
  (jsTrim c.topic != "")
    && (2 ≤ c.models.length)
    && c.models.all (fun m => AVAILABLE_MODELS.contains m)
    && (0 < c.maxRounds)
    && (0 ≤ c.convergenceThreshold)
    && (c.convergenceThreshold ≤ 1)
    && (c.moderatorModel == "" || AVAILABLE_MODELS.contains c.moderatorModel)
    && (c.synthesizerModel == "" || AVAILABLE_MODELS.contains c.synthesizerModel)

/-- Chat messages as sent to the client (`src/debate/client.ts`). -/
inductive MsgRole where
  | system
  | user
  | assistant
deriving DecidableEq, Repr

structure Message where
  role : MsgRole
  content : String
deriving DecidableEq, Repr

/-- Outcome of one external chat-completion call, as seen by the moderator or
synthesizer: a thrown failure with its message, or a reply whose
`choices[0]?.message?.content` is the given optional string. -/
inductive CallOutcome where
  | failure (msg : String)
  | success (content : Option String)

/-- JavaScript `Math.min(1, x)`. -/
def jsMin1 : JsNum → JsNum
  | JsNum.fin q => JsNum.fin (if q ≤ 1 then q else 1)
  | JsNum.posInf => JsNum.fin 1
  | JsNum.negInf => JsNum.negInf
  | JsNum.nan => JsNum.nan

/-- JavaScript `Math.max(0, x)`. -/
def jsMax0 : JsNum → JsNum
  | JsNum.fin q => JsNum.fin (if 0 ≤ q then q else 0)
  | JsNum.posInf => JsNum.posInf
  | JsNum.negInf => JsNum.fin 0
  | JsNum.nan => JsNum.nan

/-- `Math.max(0, Math.min(1, x))` from `Moderator.parseConvergenceResponse`. -/
def clamp01 (x : JsNum) : JsNum := jsMax0 (jsMin1 x)

/-- JavaScript `x >= t` for a number `x` and finite `t` (false on NaN). -/
def jsGeQ (x : JsNum) (t : ℚ) : Bool :=
  match x with
  | JsNum.fin q => t ≤ q
  | JsNum.posInf => true
  | JsNum.negInf => false
  | JsNum.nan => false

/-- The regex match `content.match(/\x7b[\s\S]*\x7d/)` of
`Moderator.parseConvergenceResponse`: greedy, so the match runs from the
first opening brace to the last closing brace of the whole reply. -/
def findIdxAux (p : Char → Bool) : List Char → Nat → Option Nat
  | [], _ => none
  | c :: t, i => if p c then some i else findIdxAux p t (i + 1)

def extractJsonSpan (content : String) : Option (List Char) :=
  let cs := content.data
  match findIdxAux (fun c => c = lbraceC) cs 0,
      findIdxAux (fun c => c = rbraceC) cs.reverse 0 with
  | some i, some jr =>
    let j := cs.length - 1 - jr
    if i < j then some ((cs.drop i).take (j - i + 1)) else none
  | _, _ => none

/-- The try-block of `Moderator.parseConvergenceResponse`: extract the regex
span, `JSON.parse` it, and check the three required fields, producing the
thrown error message on failure.  The message for a `JSON.parse` syntax
error is engine-specific; no result below depends on its text. -/
def tryParseConvergence (content : String) : Except String (Bool × JNum × String) :=
  match extractJsonSpan content with
  | none => Except.error "No JSON found in response"
  | some span =>
    match jsonParseL span with
    | none => Except.error "Unexpected token in JSON"
    | some v =>
      match v with
      | JVal.jobj kvs =>
        match getFieldJ kvs "isConverged" with
        | some (JVal.jbool b) =>
          match getFieldJ kvs "confidenceScore" with
          | some (JVal.jnum x) =>
            match getFieldJ kvs "reasoning" with
            | some (JVal.jstr r) => Except.ok (b, x, r)
            | _ => Except.error "reasoning must be a string"
          | _ => Except.error "confidenceScore must be a number"
        | _ => Except.error "isConverged must be a boolean"
      | _ => Except.error "isConverged must be a boolean"

/-- `Moderator.parseConvergenceResponse`: on success clamp the confidence and
conjoin the raw flag with the threshold test; on any parse failure return the
conservative fallback assessment. -/
def parseConvergenceResponse (content : String) (threshold : ℚ) : ConvergenceAssessment :=
  match tryParseConvergence content with
  | Except.ok (b, x, r) =>
    { isConverged := b && jsGeQ (clamp01 x.toJs) threshold
      confidenceScore := clamp01 x.toJs
      reasoning := r }
  | Except.error msg =>
    { isConverged := false
      confidenceScore := JsNum.fin 0
      reasoning := "Failed to parse moderator response: " ++ msg ++ ". Raw content: "
        ++ String.mk (content.data.take 200) ++ "..." }

def moderatorFailure (msg : String) : ConvergenceAssessment :=
  { isConverged := false
    confidenceScore := JsNum.fin 0
    reasoning := "Moderator evaluation failed: " ++ msg }

/-- `Moderator.evaluateConvergence`: fixed assessment on zero rounds, the
conservative fallback when the call fails or carries no content, and the
defensive parse otherwise. -/
def evaluateConvergence (rounds : List DebateRound) (threshold : ℚ)
    (outcome : CallOutcome) : ConvergenceAssessment :=
  if rounds.isEmpty then
    { isConverged := false, confidenceScore := JsNum.fin 0, reasoning := "No rounds to evaluate" }
  else
    match outcome with
    | CallOutcome.failure msg => moderatorFailure msg
    | CallOutcome.success none => moderatorFailure "No response content from moderator"
    | CallOutcome.success (some c) =>
      if c = "" then moderatorFailure "No response content from moderator"
      else parseConvergenceResponse c threshold

/-- Fixed system instruction of `RoundManager.buildContextMessages`. -/
def debateSystemMessage : Message :=
  { role := MsgRole.system
    content := "You are participating in a multi-agent debate. Provide thoughtful responses that consider other agents\x27 perspectives while maintaining your own reasoning." }

def topicMessage (topic : String) : Message :=
  { role := MsgRole.user, content := "Topic for debate: " ++ topic }

def attributionMessage (r : AgentResponse) : Message :=
  { role := MsgRole.assistant, content := "[Agent " ++ r.model ++ "]: " ++ r.content }

def respondMessage : Message :=
  { role := MsgRole.user
    content := "Please provide your response considering the above perspectives." }

/-- `RoundManager.buildContextMessages`, written push-by-push as in the
source: system instruction, topic, one attributed message per response of
every prior round, and a trailing instruction when prior rounds exist. -/
def buildContextMessages (topic : String) (previousRounds : List DebateRound) : List Message :=
  let messages := [debateSystemMessage, topicMessage topic]
  let messages := previousRounds.foldl
    (fun acc round => round.responses.foldl (fun acc2 resp => acc2 ++ [attributionMessage resp]) acc)
    messages
  if previousRounds.length > 0 then messages ++ [respondMessage] else messages

/-- Outcome of one attempt of `client.chatCompletion` inside
`RoundManager.getAgentResponse`: a reply with a first choice (content and
capture time), a reply with an empty choice list, or a thrown error. -/
inductive AttemptResult where
  | ok (content : String) (ts : Nat)
  | noChoices
  | err (msg : String)
deriving DecidableEq, Repr

/-- Per-agent call behaviour: the outcome of each 1-based attempt, plus the
capture time of the degraded response if all attempts fail. -/
structure AgentOracle where
  attempts : Nat → AttemptResult
  failTs : Nat

def noChoicesMsg : String := "No response choices returned from API"

def attemptErrMsg : AttemptResult → String
  | AttemptResult.ok _ _ => ""
  | AttemptResult.noChoices => noChoicesMsg
  | AttemptResult.err m => m

inductive RetryOutcome where
  | succeeded (content : String) (ts : Nat)
  | exhausted (lastError : Option String)
deriving DecidableEq, Repr

/-- The retry loop of `RoundManager.getAgentResponse`: up to the given number
of attempts, short-circuiting when the caught message contains `401`. -/
def retryFrom (att : Nat → AttemptResult) : Nat → Nat → Option String → RetryOutcome
  | _, 0, lastError => RetryOutcome.exhausted lastError
  | k, Nat.succ n, _ =>
    match att k with
    | AttemptResult.ok c ts => RetryOutcome.succeeded c ts
    | a =>
      let m := attemptErrMsg a
      if strContains m "401" then RetryOutcome.exhausted (some m)
      else retryFrom att (k + 1) n (some m)

def orUnknownMsg : Option String → String
  | none => "Unknown error"
  | some m => if m = "" then "Unknown error" else m

/-- `RoundManager.getAgentResponse` (maxRetries = 3): a successful attempt
yields the reply content, exhaustion yields the degraded response with empty
content and the summarising error string. -/
def getAgentResponse (model : String) (o : AgentOracle) : AgentResponse :=
  match retryFrom o.attempts 1 3 none with
  | RetryOutcome.succeeded c ts =>
    { model := model, content := c, timestamp := ts, error := none }
  | RetryOutcome.exhausted lastError =>
    { model := model, content := "", timestamp := o.failTs
      error := some ("Failed after 3 attempts: " ++ orUnknownMsg lastError) }

/-- `RoundManager.executeRound`: one shared context snapshot, one concurrent
query per configured participant, results collected in participant order
(`Promise.all` preserves the array order).  The source's `filter(r => r
!== null)` is the identity because `getAgentResponse` never returns null. -/
def executeRound (cfg : DebateConfig) (rounds : List DebateRound)
    (client : String → List Message → AgentOracle) : DebateRound :=
  let contextMessages := buildContextMessages cfg.topic rounds
  { roundNumber := rounds.length + 1
    responses := cfg.models.map (fun m => getAgentResponse m (client m contextMessages))
    convergenceCheck := none }

/-- Falsy test `!response.error` from the synthesizer fallback. -/
def errFalsy : Option String → Bool
  | none => true
  | some e => e = ""

def qualifiesResp (r : AgentResponse) : Bool :=
  errFalsy r.error && (jsTrim r.content != "")

/-- `Synthesizer.createFallbackSynthesis` key point: first 200 characters of
the trimmed content, with an ellipsis when the raw content is longer than
200 characters. -/
def keyPoint (r : AgentResponse) : String :=
  String.mk ((jsTrim r.content).data.take 200)
    ++ (if 200 < r.content.data.length then "..." else "")

/-- Insertion-ordered `Map.set`-with-push used to accumulate per-agent
contributions. -/
def addContribution (m kp : String) : List (String × List String) → List (String × List String)
  | [] => [(m, [kp])]
  | (k, v) :: t => if k = m then (k, v ++ [kp]) :: t else (k, v) :: addContribution m kp t

def collectContributions (rounds : List DebateRound) : List (String × List String) :=
  rounds.foldl
    (fun acc round => round.responses.foldl
      (fun acc2 r => if qualifiesResp r then addContribution r.model (keyPoint r) acc2 else acc2)
      acc)
    []

def concatAll : List String → String
  | [] => ""
  | s :: t => s ++ concatAll t

/-- One agent's section of the fallback document.  The source's
`if (index === 0) return` sits after the append and only skips to the next
iteration, so every contribution is listed. -/
def renderAgent (p : String × List String) : String :=
  p.1 ++ ":\n" ++ concatAll (p.2.map (fun c => "- " ++ c ++ "\n")) ++ "\n"

/-- `Synthesizer.createFallbackSynthesis`. -/
def createFallbackSynthesis (topic : String) (rounds : List DebateRound) (errMsg : String) : String :=
  "Final Answer for: \"" ++ topic ++ "\"\n\n"
    ++ "[Note: Automated synthesis failed, providing structured summary]\n\n"
    ++ "Key Perspectives:\n\n"
    ++ concatAll ((collectContributions rounds).map renderAgent)
    ++ "\nSynthesis Error: " ++ errMsg

/-- `Synthesizer.synthesize`: fixed text on zero rounds, trimmed reply
content on success, fallback document when the call fails or the reply has
no (or empty) content. -/
def synthesize (topic : String) (rounds : List DebateRound) (outcome : CallOutcome) : String :=
  if rounds.isEmpty then
    "No debate rounds available for topic: \"" ++ topic ++ "\". Unable to provide a synthesized answer."
  else
    match outcome with
    | CallOutcome.failure msg => createFallbackSynthesis topic rounds msg
    | CallOutcome.success none => createFallbackSynthesis topic rounds "No response content from synthesizer"
    | CallOutcome.success (some c) =>
      if c = "" then createFallbackSynthesis topic rounds "No response content from synthesizer"
      else jsTrim c

/-- Behaviour of all external calls during one `runDebate` invocation, each
indexed by the round history at the moment of the call. -/
structure DebateOracles where
  agent : List DebateRound → String → List Message → AgentOracle
  moderator : List DebateRound → CallOutcome
  synth : CallOutcome

structure LoopResult where
  rounds : List DebateRound
  achieved : Bool
  lastAssessment : Option ConvergenceAssessment

/-- One loop iteration's moderator verdict: the round is executed from the
current history, pushed, and `evaluateConvergence` runs over the extended
history, as in the body of the `runDebate` while-loop. -/
def roundAssessment (cfg : DebateConfig) (O : DebateOracles)
    (rounds : List DebateRound) : ConvergenceAssessment :=
  evaluateConvergence (rounds ++ [executeRound cfg rounds (O.agent rounds)])
    cfg.convergenceThreshold (O.moderator (rounds ++ [executeRound cfg rounds (O.agent rounds)]))

/-- The executed round after `round.convergenceCheck = convergenceAssessment`. -/
def appendedRound (cfg : DebateConfig) (O : DebateOracles)
    (rounds : List DebateRound) : DebateRound :=
  { executeRound cfg rounds (O.agent rounds) with
    convergenceCheck := some (roundAssessment cfg O rounds) }

/-- The while-loop of `DebateOrchestrator.runDebate`: while the round count
is below `maxRounds` and convergence has not been signalled, execute a
round, append it, evaluate convergence over the full history, attach the
assessment to the round, and exit immediately when it reports convergence.
The fuel equals `maxRounds`, which bounds the number of iterations. -/
def runLoop (cfg : DebateConfig) (O : DebateOracles) :
    Nat → List DebateRound → Option ConvergenceAssessment → LoopResult
  | 0, rounds, lastA => { rounds := rounds, achieved := false, lastAssessment := lastA }
  | Nat.succ fuel, rounds, lastA =>
    if rounds.length < cfg.maxRounds then
      if (roundAssessment cfg O rounds).isConverged then
        { rounds := rounds ++ [appendedRound cfg O rounds], achieved := true,
          lastAssessment := some (roundAssessment cfg O rounds) }
      else runLoop cfg O fuel (rounds ++ [appendedRound cfg O rounds])
        (some (roundAssessment cfg O rounds))
    else { rounds := rounds, achieved := false, lastAssessment := lastA }

/-- `DebateOrchestrator.runDebate`.  The transient statuses (`in_progress`,
then `converged` or `max_rounds_reached`) written by the source are
overwritten by the final `completed` assignment before the function returns,
so only `completed` is observable on the result. -/
def runDebate (s : DebateSession) (O : DebateOracles) : DebateResult :=
  let res := runLoop s.config O s.config.maxRounds s.rounds none
  let finalAnswer := synthesize s.config.topic res.rounds O.synth
  { session :=
      { s with
        rounds := res.rounds
        status := DebateStatus.completed
        finalAnswer := some finalAnswer
        convergenceAssessment := res.lastAssessment }
    finalAnswer := finalAnswer
    totalRounds := res.rounds.length
    convergenceAchieved := res.achieved }

/-- Brace-depth scan used by `specFirstBalancedObject`. -/
def braceScan : List Char → Nat → List Char → Option (List Char)
  | [], _, _ => none
  | c :: t, depth, acc =>
    if c = lbraceC then braceScan t (depth + 1) (acc ++ [c])
    else if c = rbraceC then
      if depth = 1 then some (acc ++ [c]) else braceScan t (depth - 1) (acc ++ [c])
    else braceScan t depth (acc ++ [c])

/-- Modelled from the spec: the extraction the spec and claim describe,
namely "the first balanced JSON object found anywhere in the reply text" —
the span from the first opening brace to its matching closing brace.  Used
only to compare the claimed behaviour with the source's greedy regex. -/
def specFirstBalancedObject (content : String) : Option (List Char) :=
  match findIdxAux (fun c => c = lbraceC) content.data 0 with
  | none => none
  | some i => braceScan (content.data.drop i) 0 []

/-- Whether a character span parses as a JSON object carrying the three
required fields with the required primitive types. -/
def hasThreeTypedFields (cs : List Char) : Bool :=
  match jsonParseL cs with
  | some (JVal.jobj kvs) =>
    (match getFieldJ kvs "isConverged" with
      | some (JVal.jbool _) => true
      | _ => false)
    && (match getFieldJ kvs "confidenceScore" with
      | some (JVal.jnum _) => true
      | _ => false)
    && (match getFieldJ kvs "reasoning" with
      | some (JVal.jstr _) => true
      | _ => false)
  | _ => false

/-- Whether the defensive parse of `Moderator.parseConvergenceResponse`
reaches the success path. -/
def parseSucceeded (content : String) : Bool :=
  match tryParseConvergence content with
  | Except.ok _ => true
  | Except.error _ => false

/-- The first non-error, non-empty contribution of a participant across all
rounds, in round order then response order. -/
def firstQualifying (rounds : List DebateRound) (m : String) : Option AgentResponse :=
  (rounds.foldr (fun r acc => r.responses ++ acc) []).find?
    (fun r => r.model == m && qualifiesResp r)

/-- First-match association lookup into the contribution map. -/
def assocGet : List (String × List String) → String → List String
  | [], _ => []
  | (k, v) :: t, m => if k = m then v else assocGet t m

/-- Whether one attempt of `client.chatCompletion` succeeds with a non-empty
choice list. -/
def isOkAttempt : AttemptResult → Bool
  | AttemptResult.ok _ _ => true
  | AttemptResult.noChoices => false
  | AttemptResult.err _ => false

/-- Concrete fixture: a valid two-participant configuration. -/
def wConfig1 : DebateConfig :=
  { topic := "topic", models := ["deepseek", "gpt-5"], maxRounds := 3
    convergenceThreshold := mkRat 8 10, moderatorModel := "deepseek"
    synthesizerModel := "deepseek" }

/-- Concrete fixture: a fresh session over `wConfig1`. -/
def wSession1 : DebateSession :=
  { id := "s1", config := wConfig1, rounds := [], status := DebateStatus.pending
    finalAnswer := none, convergenceAssessment := none }

/-- Concrete fixture: a moderator reply that parses and converges. -/
def wModeratorReply : String :=
  "\x7b\"isConverged\": true, \"confidenceScore\": 0.9, \"reasoning\": \"agreed\"\x7d"

/-- Concrete fixture: agents always answer, the moderator signals
convergence after the second round, synthesis succeeds. -/
def wOracles1 : DebateOracles :=
  { agent := fun _ m _ => { attempts := fun _ => AttemptResult.ok ("ans-" ++ m) 0, failTs := 0 }
    moderator := fun rs =>
      if rs.length = 2 then CallOutcome.success (some wModeratorReply)
      else CallOutcome.failure "down"
    synth := CallOutcome.success (some "final answer") }

/-- Concrete fixture: the moderator always fails and the synthesis call
succeeds with a whitespace-only reply. -/
def wOraclesWs : DebateOracles :=
  { agent := fun _ m _ => { attempts := fun _ => AttemptResult.ok ("ans-" ++ m) 0, failTs := 0 }
    moderator := fun _ => CallOutcome.failure "down"
    synth := CallOutcome.success (some " ") }

theorem JNum_toJs_ne_nan (n : JNum) : n.toJs ≠ JsNum.nan := by
  cases n <;> simp [JNum.toJs]

theorem clamp01_of_ne_nan (x : JsNum) (hx : x ≠ JsNum.nan) :
    ∃ q : ℚ, clamp01 x = JsNum.fin q ∧ 0 ≤ q ∧ q ≤ 1 := by
  cases x with
  | fin q =>
    by_cases h1 : q ≤ 1
    · by_cases h0 : 0 ≤ q
      · exact ⟨q, by simp [clamp01, jsMin1, jsMax0, h1, h0], h0, h1⟩
      · exact ⟨0, by simp [clamp01, jsMin1, jsMax0, h1, h0], le_refl 0, by norm_num⟩
    · refine ⟨1, ?_, by norm_num, le_refl 1⟩
      have h0 : (0 : ℚ) ≤ 1 := by norm_num
      simp [clamp01, jsMin1, jsMax0, h1, h0]
  | posInf =>
    refine ⟨1, ?_, by norm_num, le_refl 1⟩
    have h0 : (0 : ℚ) ≤ 1 := by norm_num
    simp [clamp01, jsMin1, jsMax0, h0]
  | negInf => exact ⟨0, by simp [clamp01, jsMin1, jsMax0], le_refl 0, by norm_num⟩
  | nan => exact absurd rfl hx

/-- C2: for every reply of the judging model — and for failed calls and
missing content as well — the assessment returned by
`Moderator.evaluateConvergence` carries a confidence score that is a finite
number in [0,1]; in particular NaN never propagates into the assessment
(`JSON.parse` cannot produce NaN, and the clamp maps every other value,
including out-of-range and infinite ones, into [0,1]). -/
theorem evaluateConvergence_confidence_bounded
    (rounds : List DebateRound) (threshold : ℚ) (outcome : CallOutcome) :
    ∃ q : ℚ, (evaluateConvergence rounds threshold outcome).confidenceScore = JsNum.fin q
      ∧ 0 ≤ q ∧ q ≤ 1 := by
  unfold evaluateConvergence
  split
  · exact ⟨0, rfl, le_refl 0, by norm_num⟩
  · cases outcome with
    | failure msg => exact ⟨0, rfl, le_refl 0, by norm_num⟩
    | success c =>
      cases c with
      | none => exact ⟨0, rfl, le_refl 0, by norm_num⟩
      | some s =>
        dsimp only
        split
        · exact ⟨0, rfl, le_refl 0, by norm_num⟩
        · unfold parseConvergenceResponse
          cases h : tryParseConvergence s with
          | ok t =>
            obtain ⟨b, x, r⟩ := t
            simpa using clamp01_of_ne_nan x.toJs (JNum_toJs_ne_nan x)
          | error msg => exact ⟨0, rfl, le_refl 0, by norm_num⟩

/-- C3: whenever the moderator reply parses successfully, the returned
`isConverged` is exactly the conjunction of the raw reported flag with the
test that the clamped confidence reaches the threshold; in particular a
reply claiming convergence whose clamped confidence is below the threshold
yields `isConverged = false`. -/
theorem parseConvergence_isConverged_conjunction
    (content : String) (threshold : ℚ) (b : Bool) (x : JNum) (r : String)
    (h : tryParseConvergence content = Except.ok (b, x, r)) :
    (parseConvergenceResponse content threshold).isConverged
        = (b && jsGeQ (clamp01 x.toJs) threshold)
    ∧ (b = true → jsGeQ (clamp01 x.toJs) threshold = false →
        (parseConvergenceResponse content threshold).isConverged = false) := by
  unfold parseConvergenceResponse
  rw [h]
  refine ⟨rfl, ?_⟩
  intro hb hg
  simp [hb, hg]

theorem listInfix_nil_pat (l : List Char) : listInfix [] l = true := by
  cases l <;> simp [listInfix, List.isPrefixOf]

theorem listInfix_append_left (p a b : List Char) (h : listInfix p a = true) :
    listInfix p (a ++ b) = true := by
  induction a with
  | nil =>
    simp [listInfix] at h
    subst h
    exact listInfix_nil_pat b
  | cons c t ih =>
    simp only [listInfix, Bool.or_eq_true] at h ⊢
    rcases h with h | h
    · left
      rw [List.isPrefixOf_iff_prefix] at h ⊢
      exact h.trans (List.prefix_append _ _)
    · right
      exact ih h

theorem listInfix_append_right (p a b : List Char) (h : listInfix p b = true) :
    listInfix p (a ++ b) = true := by
  induction a with
  | nil => simpa using h
  | cons c t ih =>
    simp only [List.cons_append, listInfix, Bool.or_eq_true]
    right
    exact ih

theorem listInfix_self_append (p b : List Char) : listInfix p (p ++ b) = true := by
  cases hp : p ++ b with
  | nil =>
    have : p = [] := by
      cases p
      · rfl
      · simp at hp
    simp [this, listInfix]
  | cons c t =>
    rw [← hp]
    cases p with
    | nil => exact listInfix_nil_pat b
    | cons d u =>
      simp only [List.cons_append, listInfix, Bool.or_eq_true]
      left
      rw [List.isPrefixOf_iff_prefix]
      exact List.prefix_append _ _

theorem strContains_append_left (a b p : String) (h : strContains a p = true) :
    strContains (a ++ b) p = true := by
  unfold strContains at h ⊢
  rw [String.data_append]
  exact listInfix_append_left _ _ _ h

theorem strContains_append_right (a b p : String) (h : strContains b p = true) :
    strContains (a ++ b) p = true := by
  unfold strContains at h ⊢
  rw [String.data_append]
  exact listInfix_append_right _ _ _ h

theorem strContains_self_append (p b : String) : strContains (p ++ b) p = true := by
  unfold strContains
  rw [String.data_append]
  exact listInfix_self_append _ _

theorem parseConvergence_isConverged_conjunction_witness :
    (parseConvergenceResponse
        "\x7b\"isConverged\": true, \"confidenceScore\": 0.5, \"reasoning\": \"tentative\"\x7d"
        (mkRat 8 10)).isConverged = false := by
  have h := parseConvergence_isConverged_conjunction
    "\x7b\"isConverged\": true, \"confidenceScore\": 0.5, \"reasoning\": \"tentative\"\x7d"
    (mkRat 8 10) true (JNum.fin (mkRat 1 2)) "tentative" rfl
  exact h.2 rfl rfl

theorem foldl_push_map (g : AgentResponse → Message) :
    ∀ (rs : List AgentResponse) (init : List Message),
      rs.foldl (fun a r => a ++ [g r]) init = init ++ rs.map g := by
  intro rs
  induction rs with
  | nil => intro init; simp
  | cons r t ih =>
    intro init
    simp only [List.foldl_cons, List.map_cons]
    rw [ih]
    simp

theorem listInfix_refl (p : List Char) : listInfix p p = true := by
  have h := listInfix_self_append p []
  simpa using h

theorem strContains_refl (p : String) : strContains p p = true := listInfix_refl p.data

theorem foldl_rounds_push (g : AgentResponse → Message) :
    ∀ (prev : List DebateRound) (init : List Message),
      prev.foldl (fun acc round => round.responses.foldl (fun a r => a ++ [g r]) acc) init
        = init ++ prev.flatMap (fun round => round.responses.map g) := by
  intro prev
  induction prev with
  | nil => intro init; simp
  | cons rd t ih =>
    intro init
    simp only [List.foldl_cons, List.flatMap_cons]
    rw [ih, foldl_push_map]
    simp

/-- C6: the context built for a round is the fixed system instruction, a
message carrying the literal topic text, one attributed message per response
of every prior round in round order and response order, and a trailing
instruction present exactly when at least one prior round exists; and
`executeRound` passes this single snapshot identically to every configured
participant. -/
theorem buildContextMessages_shape (topic : String) (prev : List DebateRound)
    (cfg : DebateConfig) (rounds : List DebateRound)
    (client : String → List Message → AgentOracle) :
    buildContextMessages topic prev
      = [debateSystemMessage, topicMessage topic]
        ++ prev.flatMap (fun round => round.responses.map attributionMessage)
        ++ (if prev.isEmpty then [] else [respondMessage])
    ∧ strContains (topicMessage topic).content topic = true
    ∧ (executeRound cfg rounds client).responses
        = cfg.models.map
            (fun m => getAgentResponse m (client m (buildContextMessages cfg.topic rounds))) := by
  refine ⟨?_, ?_, rfl⟩
  · unfold buildContextMessages
    dsimp only
    rw [foldl_rounds_push]
    cases prev with
    | nil => simp
    | cons rd t => simp
  · show strContains ("Topic for debate: " ++ topic) topic = true
    exact strContains_append_right _ _ _ (strContains_refl topic)

theorem findIdxAux_some (p : Char → Bool) :
    ∀ (l : List Char) (n i : Nat), findIdxAux p l n = some i →
      n ≤ i ∧ ∃ pre c suf, l = pre ++ c :: suf ∧ pre.length = i - n ∧ p c = true
        ∧ pre.all (fun x => !p x) = true := by
  intro l
  induction l with
  | nil => intro n i h; simp [findIdxAux] at h
  | cons c t ih =>
    intro n i h
    unfold findIdxAux at h
    by_cases hp : p c = true
    · rw [if_pos hp] at h
      obtain rfl : n = i := Option.some.injEq _ _ ▸ (by simpa using h)
      exact ⟨le_refl _, [], c, t, by simp, by simp, hp, by simp⟩
    · rw [if_neg hp] at h
      obtain ⟨hle, pre, d, suf, hl, hlen, hd, hall⟩ := ih (n + 1) i h
      refine ⟨by omega, c :: pre, d, suf, by simp [hl], by simp [hlen]; omega, hd, ?_⟩
      simp only [List.all_cons, Bool.and_eq_true]
      exact ⟨by simp [hp], hall⟩

/-- C7 counterexample: a reply holding a complete well-typed JSON object
followed by prose with one more closing brace.  The first balanced object
carries all three fields, so the claimed extraction would succeed, but the
source's greedy regex span (first opening brace to last closing brace) is
not valid JSON and the parse fails. -/
theorem parse_first_balanced_counterexample :
    specFirstBalancedObject
        "\x7b\"isConverged\": true, \"confidenceScore\": 1, \"reasoning\": \"ok\"\x7d and \x7d"
      = some ("\x7b\"isConverged\": true, \"confidenceScore\": 1, \"reasoning\": \"ok\"\x7d").data
    ∧ hasThreeTypedFields
        ("\x7b\"isConverged\": true, \"confidenceScore\": 1, \"reasoning\": \"ok\"\x7d").data = true
    ∧ parseSucceeded
        "\x7b\"isConverged\": true, \"confidenceScore\": 1, \"reasoning\": \"ok\"\x7d and \x7d"
      = false := by
  refine ⟨by decide, by decide, by decide⟩

/-- C7 (amended): the defensive parser extracts the greedy span running from
the first opening brace of the reply to its last closing brace (not the
first balanced object), and it succeeds iff that span is valid JSON whose
value is an object with the three required fields of the required primitive
types. -/
theorem tryParseConvergence_greedy_span_spec (content : String) :
    (parseSucceeded content = true ↔
      ∃ span, extractJsonSpan content = some span ∧ hasThreeTypedFields span = true)
    ∧ (∀ span, extractJsonSpan content = some span →
        ∃ i j, i < j
          ∧ span = (content.data.drop i).take (j - i + 1)
          ∧ content.data[i]? = some lbraceC
          ∧ (content.data.take i).all (fun c => !(c = lbraceC)) = true
          ∧ content.data[j]? = some rbraceC
          ∧ (content.data.drop (j + 1)).all (fun c => !(c = rbraceC)) = true) := by
  constructor
  · constructor
    · intro h
      unfold parseSucceeded at h
      cases he : tryParseConvergence content with
      | error e => rw [he] at h; simp at h
      | ok t =>
        unfold tryParseConvergence at he
        cases hs : extractJsonSpan content with
        | none => rw [hs] at he; simp at he
        | some span =>
          rw [hs] at he
          dsimp only at he
          refine ⟨span, rfl, ?_⟩
          unfold hasThreeTypedFields
          cases hj : jsonParseL span with
          | none => rw [hj] at he; simp at he
          | some v =>
            rw [hj] at he
            cases v with
            | jobj kvs =>
              cases hb : getFieldJ kvs "isConverged" with
              | none => simp [hb] at he
              | some vb =>
                cases vb <;> simp [hb] at he ⊢
                cases hx : getFieldJ kvs "confidenceScore" with
                | none => simp [hx] at he
                | some vx =>
                  cases vx <;> simp [hx] at he ⊢
                  cases hr : getFieldJ kvs "reasoning" with
                  | none => simp [hr] at he
                  | some vr => cases vr <;> simp [hr] at he ⊢
            | jnull => simp at he
            | jbool b => simp at he
            | jnum x => simp at he
            | jstr s => simp at he
            | jarr xs => simp at he
    · rintro ⟨span, hs, hf⟩
      unfold hasThreeTypedFields at hf
      unfold parseSucceeded tryParseConvergence
      rw [hs]
      dsimp only
      cases hj : jsonParseL span with
      | none => rw [hj] at hf; simp at hf
      | some v =>
        rw [hj] at hf
        cases v with
        | jobj kvs =>
          cases hb : getFieldJ kvs "isConverged" with
          | none => simp [hb] at hf
          | some vb =>
            cases vb <;> simp [hb] at hf ⊢
            cases hx : getFieldJ kvs "confidenceScore" with
            | none => simp [hx] at hf
            | some vx =>
              cases vx <;> simp [hx] at hf ⊢
              cases hr : getFieldJ kvs "reasoning" with
              | none => simp [hr] at hf
              | some vr => cases vr <;> simp [hr] at hf ⊢
        | jnull => simp at hf
        | jbool b => simp at hf
        | jnum x => simp at hf
        | jstr s => simp at hf
        | jarr xs => simp at hf
  · intro span hs
    unfold extractJsonSpan at hs
    dsimp only at hs
    cases hi : findIdxAux (fun c => c = lbraceC) content.data 0 with
    | none => rw [hi] at hs; simp at hs
    | some i =>
      cases hjr : findIdxAux (fun c => c = rbraceC) content.data.reverse 0 with
      | none => rw [hi, hjr] at hs; simp at hs
      | some jr =>
        rw [hi, hjr] at hs
        dsimp only at hs
        by_cases hij : i < content.data.length - 1 - jr
        · rw [if_pos hij] at hs
          obtain rfl : (content.data.drop i).take (content.data.length - 1 - jr - i + 1) = span := by
            simpa using hs
          obtain ⟨-, pre, c, suf, hl, hlen, hc, hall⟩ := findIdxAux_some _ _ _ _ hi
          obtain ⟨-, pre2, d, suf2, hl2, hlen2, hd, hall2⟩ := findIdxAux_some _ _ _ _ hjr
          simp only [Nat.sub_zero] at hlen hlen2
          have hc2 : c = lbraceC := by simpa using hc
          have hd2 : d = rbraceC := by simpa using hd
          subst hc2
          subst hd2
          have hrev : content.data = suf2.reverse ++ rbraceC :: pre2.reverse := by
            have := congrArg List.reverse hl2
            simpa using this
          have hjlen : content.data.length - 1 - jr = suf2.length := by
            rw [hrev]
            simp [hlen2]
          refine ⟨i, content.data.length - 1 - jr, hij, rfl, ?_, ?_, ?_, ?_⟩
          · rw [hl]
            rw [List.getElem?_append_right (by omega)]
            simp [hlen]
          · rw [hl]
            rw [List.take_append_eq_append_take]
            have htp : List.take i pre = pre := by
              rw [← hlen]
              exact List.take_length pre
            rw [htp, hlen]
            simp only [Nat.sub_self, List.take_zero, List.append_nil]
            exact hall
          · rw [hjlen, hrev]
            rw [List.getElem?_append_right (by simp)]
            simp
          · rw [hjlen, hrev]
            have hd1 : List.drop (suf2.length + 1) (suf2.reverse ++ rbraceC :: pre2.reverse)
                = pre2.reverse := by
              rw [List.drop_append_eq_append_drop]
              have h1 : List.drop (suf2.length + 1) suf2.reverse = [] := by
                apply List.drop_eq_nil_of_le
                simp
              rw [h1]
              simp
            rw [hd1]
            simpa using hall2
        · rw [if_neg hij] at hs
          simp at hs

/-- C8 counterexample: a reply that fails the defensive parse yields a
fallback whose reasoning starts with capital "Failed to parse", so the
lowercase literal marker "failed" required by the claim does not occur in
it. -/
theorem parse_failure_reasoning_lacks_failed_marker :
    (evaluateConvergence [⟨1, [⟨"deepseek", "A", 0, none⟩], none⟩] (mkRat 1 2)
        (CallOutcome.success (some "no json here"))).reasoning
      = "Failed to parse moderator response: No JSON found in response. Raw content: no json here..."
    ∧ strContains
        "Failed to parse moderator response: No JSON found in response. Raw content: no json here..."
        "failed" = false := by
  exact ⟨rfl, by decide⟩

/-- C8 (amended): on every failure of the convergence evaluation —
external call failure, missing or empty reply content, or parse failure —
`Moderator.evaluateConvergence` returns (rather than throws) an assessment
with isConverged = false and confidenceScore = 0 whose reasoning contains
the failure marker case-insensitively: lowercase "failed" on call failures
and missing content, capitalised "Failed" on parse failures. -/
theorem evaluateConvergence_failure_fallback
    (r0 : DebateRound) (rs : List DebateRound) (threshold : ℚ) :
    (∀ msg,
      (evaluateConvergence (r0 :: rs) threshold (CallOutcome.failure msg)).isConverged = false
      ∧ (evaluateConvergence (r0 :: rs) threshold (CallOutcome.failure msg)).confidenceScore
          = JsNum.fin 0
      ∧ strContains (evaluateConvergence (r0 :: rs) threshold
          (CallOutcome.failure msg)).reasoning "failed" = true)
    ∧ ((evaluateConvergence (r0 :: rs) threshold (CallOutcome.success none)).isConverged = false
      ∧ (evaluateConvergence (r0 :: rs) threshold (CallOutcome.success none)).confidenceScore
          = JsNum.fin 0
      ∧ strContains (evaluateConvergence (r0 :: rs) threshold
          (CallOutcome.success none)).reasoning "failed" = true)
    ∧ (∀ content e, tryParseConvergence content = Except.error e → content ≠ "" →
        (evaluateConvergence (r0 :: rs) threshold
            (CallOutcome.success (some content))).isConverged = false
        ∧ (evaluateConvergence (r0 :: rs) threshold
            (CallOutcome.success (some content))).confidenceScore = JsNum.fin 0
        ∧ (strContains (evaluateConvergence (r0 :: rs) threshold
              (CallOutcome.success (some content))).reasoning "failed"
            || strContains (evaluateConvergence (r0 :: rs) threshold
              (CallOutcome.success (some content))).reasoning "Failed") = true) := by
  have hfail : ∀ msg, strContains ("Moderator evaluation failed: " ++ msg) "failed" = true := by
    intro msg
    exact strContains_append_left _ _ _ (by decide)
  refine ⟨?_, ?_, ?_⟩
  · intro msg
    exact ⟨rfl, rfl, hfail msg⟩
  · exact ⟨rfl, rfl, hfail _⟩
  · intro content e he hne
    have hev : evaluateConvergence (r0 :: rs) threshold (CallOutcome.success (some content))
        = parseConvergenceResponse content threshold := by
      unfold evaluateConvergence
      simp [hne]
    have hp : parseConvergenceResponse content threshold
        = { isConverged := false
            confidenceScore := JsNum.fin 0
            reasoning := "Failed to parse moderator response: " ++ e ++ ". Raw content: "
              ++ String.mk (content.data.take 200) ++ "..." } := by
      unfold parseConvergenceResponse
      rw [he]
    rw [hev, hp]
    refine ⟨rfl, rfl, ?_⟩
    rw [Bool.or_eq_true]
    right
    exact strContains_append_left _ _ _ (strContains_append_left _ _ _
      (strContains_append_left _ _ _ (strContains_append_left _ _ _ (by decide))))

theorem evaluateConvergence_failure_fallback_witness :
    (evaluateConvergence [⟨1, [⟨"deepseek", "A", 0, none⟩], none⟩] (mkRat 1 2)
        (CallOutcome.failure "network down")).isConverged = false
    ∧ (strContains (evaluateConvergence [⟨1, [⟨"deepseek", "A", 0, none⟩], none⟩] (mkRat 1 2)
        (CallOutcome.success (some "garbage reply"))).reasoning "failed"
      || strContains (evaluateConvergence [⟨1, [⟨"deepseek", "A", 0, none⟩], none⟩] (mkRat 1 2)
        (CallOutcome.success (some "garbage reply"))).reasoning "Failed") = true := by
  have h := evaluateConvergence_failure_fallback
    ⟨1, [⟨"deepseek", "A", 0, none⟩], none⟩ [] (mkRat 1 2)
  exact ⟨(h.1 "network down").1,
    (h.2.2 "garbage reply" "No JSON found in response" rfl (by decide)).2.2⟩

theorem tryParseConvergence_greedy_span_spec_witness :
    ∃ i j, i < j
      ∧ ("\x7by\x7d").data = (("x\x7by\x7dz").data.drop i).take (j - i + 1)
      ∧ ("x\x7by\x7dz").data[i]? = some lbraceC
      ∧ (("x\x7by\x7dz").data.take i).all (fun c => !(c = lbraceC)) = true
      ∧ ("x\x7by\x7dz").data[j]? = some rbraceC
      ∧ (("x\x7by\x7dz").data.drop (j + 1)).all (fun c => !(c = rbraceC)) = true := by
  exact (tryParseConvergence_greedy_span_spec "x\x7by\x7dz").2 ("\x7by\x7d").data rfl

theorem orUnknownMsg_ne_empty (o : Option String) : orUnknownMsg o ≠ "" := by
  cases o with
  | none => simp [orUnknownMsg]
  | some m =>
    by_cases hm : m = ""
    · simp [orUnknownMsg, hm]
    · simp [orUnknownMsg, hm]

theorem getAgentResponse_model (m : String) (o : AgentOracle) :
    (getAgentResponse m o).model = m := by
  unfold getAgentResponse
  cases retryFrom o.attempts 1 3 none <;> rfl

theorem retryFrom_exhausted (att : Nat → AttemptResult)
    (h1 : isOkAttempt (att 1) = false) (h2 : isOkAttempt (att 2) = false)
    (h3 : isOkAttempt (att 3) = false) :
    ∃ le, retryFrom att 1 3 none = RetryOutcome.exhausted (some le) := by
  have step : ∀ (k n : Nat) (prev : Option String), isOkAttempt (att k) = false →
      (∀ m, ∃ le, retryFrom att (k + 1) n (some m) = RetryOutcome.exhausted (some le)) →
      ∃ le, retryFrom att k (n + 1) prev = RetryOutcome.exhausted (some le) := by
    intro k n prev hk ih
    cases ha : att k with
    | ok c ts => rw [ha] at hk; simp [isOkAttempt] at hk
    | noChoices =>
      rw [retryFrom, ha]
      dsimp only [attemptErrMsg]
      by_cases h401 : strContains noChoicesMsg "401" = true
      · rw [if_pos h401]; exact ⟨noChoicesMsg, rfl⟩
      · rw [if_neg h401]; exact ih noChoicesMsg
    | err msg =>
      rw [retryFrom, ha]
      dsimp only [attemptErrMsg]
      by_cases h401 : strContains msg "401" = true
      · rw [if_pos h401]; exact ⟨msg, rfl⟩
      · rw [if_neg h401]; exact ih msg
  refine step 1 2 none h1 (fun m1 => step 2 1 (some m1) h2 (fun m2 => step 3 0 (some m2) h3 ?_))
  intro m3
  exact ⟨m3, rfl⟩

/-- C5: `RoundManager.executeRound` returns exactly one response per
configured participant in the configured order; a participant whose every
attempt fails still yields a completed round, with that participant carrying
empty content and a non-empty error naming the attempt count, while the
responses of the other participants do not depend on the failing
participant's call behaviour. -/
theorem executeRound_order_and_degraded (cfg : DebateConfig) (rounds : List DebateRound)
    (client : String → List Message → AgentOracle) :
    (executeRound cfg rounds client).responses.map AgentResponse.model = cfg.models
    ∧ (∀ (i : Nat) (m : String), cfg.models[i]? = some m →
        isOkAttempt ((client m (buildContextMessages cfg.topic rounds)).attempts 1) = false →
        isOkAttempt ((client m (buildContextMessages cfg.topic rounds)).attempts 2) = false →
        isOkAttempt ((client m (buildContextMessages cfg.topic rounds)).attempts 3) = false →
        ∃ e, (executeRound cfg rounds client).responses[i]?
            = some { model := m, content := "",
                     timestamp := (client m (buildContextMessages cfg.topic rounds)).failTs,
                     error := some ("Failed after 3 attempts: " ++ e) }
          ∧ e ≠ "")
    ∧ (∀ (m : String) (client2 : String → List Message → AgentOracle),
        (∀ m2 msgs, m2 ≠ m → client m2 msgs = client2 m2 msgs) →
        ∀ (j : Nat) (m2 : String), cfg.models[j]? = some m2 → m2 ≠ m →
          (executeRound cfg rounds client).responses[j]?
            = (executeRound cfg rounds client2).responses[j]?) := by
  refine ⟨?_, ?_, ?_⟩
  · show (cfg.models.map
        (fun m => getAgentResponse m (client m (buildContextMessages cfg.topic rounds)))).map
        AgentResponse.model = cfg.models
    rw [List.map_map]
    have : (AgentResponse.model ∘
        fun m => getAgentResponse m (client m (buildContextMessages cfg.topic rounds)))
        = fun m => m := by
      funext m
      exact getAgentResponse_model m _
    rw [this]
    simp
  · intro i m hm h1 h2 h3
    obtain ⟨le, hle⟩ := retryFrom_exhausted _ h1 h2 h3
    refine ⟨orUnknownMsg (some le), ?_, orUnknownMsg_ne_empty _⟩
    show (cfg.models.map
        (fun m => getAgentResponse m (client m (buildContextMessages cfg.topic rounds))))[i]?
      = _
    rw [List.getElem?_map, hm]
    simp only [Option.map_some']
    unfold getAgentResponse
    rw [hle]
  · intro m client2 hcl j m2 hj hne
    show (cfg.models.map
        (fun x => getAgentResponse x (client x (buildContextMessages cfg.topic rounds))))[j]?
      = (cfg.models.map
        (fun x => getAgentResponse x (client2 x (buildContextMessages cfg.topic rounds))))[j]?
    rw [List.getElem?_map, List.getElem?_map, hj]
    simp only [Option.map_some']
    rw [hcl m2 _ hne]

theorem executeRound_order_and_degraded_witness :
    (executeRound ⟨"t", ["deepseek", "gpt-5"], 3, mkRat 8 10, "deepseek", "deepseek"⟩ []
        (fun m _ => if m = "gpt-5" then ⟨fun _ => AttemptResult.err "boom", 7⟩
          else ⟨fun _ => AttemptResult.ok "fine" 1, 0⟩)).responses.map AgentResponse.model
      = ["deepseek", "gpt-5"]
    ∧ ∃ e, (executeRound ⟨"t", ["deepseek", "gpt-5"], 3, mkRat 8 10, "deepseek", "deepseek"⟩ []
        (fun m _ => if m = "gpt-5" then ⟨fun _ => AttemptResult.err "boom", 7⟩
          else ⟨fun _ => AttemptResult.ok "fine" 1, 0⟩)).responses[1]?
        = some { model := "gpt-5", content := "", timestamp := 7,
                 error := some ("Failed after 3 attempts: " ++ e) }
      ∧ e ≠ "" := by
  have h := executeRound_order_and_degraded
    ⟨"t", ["deepseek", "gpt-5"], 3, mkRat 8 10, "deepseek", "deepseek"⟩ []
    (fun m _ => if m = "gpt-5" then ⟨fun _ => AttemptResult.err "boom", 7⟩
      else ⟨fun _ => AttemptResult.ok "fine" 1, 0⟩)
  exact ⟨h.1, h.2.1 1 "gpt-5" rfl (by decide) (by decide) (by decide)⟩

theorem listInfix_cons_of (p : List Char) (c : Char) (l : List Char)
    (h : listInfix p l = true) : listInfix p (c :: l) = true := by
  simp [listInfix, h]

theorem strContains_via (s t p : String) (x y : List Char)
    (h : s.data = x ++ (t.data ++ y)) (hc : strContains t p = true) :
    strContains s p = true := by
  unfold strContains at hc ⊢
  rw [h]
  exact listInfix_append_right _ _ _ (listInfix_append_left _ _ _ hc)

theorem strContains_intro (s p : String) (x y : List Char)
    (h : s.data = x ++ (p.data ++ y)) : strContains s p = true := by
  unfold strContains
  rw [h]
  exact listInfix_append_right _ _ _ (listInfix_self_append _ _)

theorem foldl_rounds_flatten {α : Type} (g : α → AgentResponse → α) :
    ∀ (rounds : List DebateRound) (init : α),
      rounds.foldl (fun acc round => round.responses.foldl g acc) init
        = (rounds.foldr (fun r acc => r.responses ++ acc) []).foldl g init := by
  intro rounds
  induction rounds with
  | nil => intro init; rfl
  | cons rd t ih =>
    intro init
    simp only [List.foldl_cons, List.foldr_cons, List.foldl_append]
    exact ih _

theorem foldl_if_filter {α : Type} (p : AgentResponse → Bool) (g : α → AgentResponse → α) :
    ∀ (l : List AgentResponse) (init : α),
      l.foldl (fun a r => if p r then g a r else a) init = (l.filter p).foldl g init := by
  intro l
  induction l with
  | nil => intro init; rfl
  | cons r t ih =>
    intro init
    cases hp : p r <;> simp [List.filter_cons, hp, ih]

theorem assocGet_add_same (m kp : String) :
    ∀ acc, assocGet (addContribution m kp acc) m = assocGet acc m ++ [kp] := by
  intro acc
  induction acc with
  | nil => simp [addContribution, assocGet]
  | cons kv t ih =>
    obtain ⟨k, v⟩ := kv
    by_cases hk : k = m
    · simp [addContribution, assocGet, hk]
    · simp [addContribution, assocGet, hk, ih]

theorem assocGet_add_other (m kp m2 : String) (hne : m2 ≠ m) :
    ∀ acc, assocGet (addContribution m kp acc) m2 = assocGet acc m2 := by
  have hmm2 : m ≠ m2 := fun h => hne h.symm
  intro acc
  induction acc with
  | nil => simp [addContribution, assocGet, hmm2]
  | cons kv t ih =>
    obtain ⟨k, v⟩ := kv
    by_cases hk : k = m
    · subst hk
      simp [addContribution, assocGet, hmm2]
    · by_cases hk2 : k = m2
      · simp [addContribution, assocGet, hk, hk2, hne]
      · simp [addContribution, assocGet, hk, hk2, ih]

theorem assocGet_fold_qualifying (m : String) :
    ∀ (l : List AgentResponse) (acc : List (String × List String)),
      assocGet (l.foldl (fun a r => addContribution r.model (keyPoint r) a) acc) m
        = assocGet acc m ++ (l.filter (fun r => r.model == m)).map keyPoint := by
  intro l
  induction l with
  | nil => intro acc; simp
  | cons r t ih =>
    intro acc
    simp only [List.foldl_cons]
    rw [ih]
    by_cases hm : r.model = m
    · subst hm
      rw [assocGet_add_same]
      simp [List.filter_cons]
    · rw [assocGet_add_other r.model (keyPoint r) m (fun h => hm h.symm)]
      simp [List.filter_cons, hm]

theorem find?_eq_head?_filter (p : AgentResponse → Bool) :
    ∀ l : List AgentResponse, l.find? p = (l.filter p).head? := by
  intro l
  induction l with
  | nil => rfl
  | cons a t ih =>
    cases hp : p a
    · rw [List.find?_cons_of_neg _ (by simp [hp]), List.filter_cons_of_neg (by simp [hp])]
      exact ih
    · rw [List.find?_cons_of_pos _ hp, List.filter_cons_of_pos hp]
      rfl

theorem filter_filter_merge (pm q : AgentResponse → Bool) :
    ∀ l : List AgentResponse,
      (l.filter q).filter pm = l.filter (fun r => pm r && q r) := by
  intro l
  induction l with
  | nil => rfl
  | cons a t ih =>
    cases hq : q a <;> cases hpm : pm a <;> simp [List.filter_cons, hq, hpm, ih]

theorem assocGet_mem (m : String) :
    ∀ (assoc : List (String × List String)) (v : List String),
      assocGet assoc m = v → v ≠ [] → (m, v) ∈ assoc := by
  intro assoc
  induction assoc with
  | nil =>
    intro v hv hne
    simp [assocGet] at hv
    exact absurd hv hne
  | cons kv t ih =>
    intro v hv hne
    obtain ⟨k, w⟩ := kv
    by_cases hk : k = m
    · subst hk
      simp [assocGet] at hv
      subst hv
      exact List.mem_cons_self _ _
    · simp [assocGet, hk] at hv
      exact List.mem_cons_of_mem _ (ih v hv hne)

theorem concatAll_contains (p : String) :
    ∀ (l : List String) (s : String), s ∈ l → strContains s p = true →
      strContains (concatAll l) p = true := by
  intro l
  induction l with
  | nil => intro s hs; simp at hs
  | cons a t ih =>
    intro s hs hc
    rcases List.mem_cons.mp hs with h | h
    · subst h
      exact strContains_append_left _ _ _ hc
    · exact strContains_append_right _ _ _ (ih s h hc)

theorem renderAgent_contains_first (m kp : String) (rest : List String) :
    strContains (renderAgent (m, kp :: rest)) ("- " ++ kp ++ "\n") = true := by
  apply strContains_intro (renderAgent (m, kp :: rest)) ("- " ++ kp ++ "\n")
    (m.data ++ (":\n").data)
    ((concatAll (rest.map (fun c => "- " ++ c ++ "\n"))).data ++ ("\n").data)
  simp [renderAgent, concatAll, String.data_append, List.append_assoc]

/-- C9: a failed synthesis call over a non-empty round list produces the
deterministic fallback document; for every participant having a non-error
non-empty contribution, the document lists the first ~200 characters of that
participant's first such contribution, and the document reports the
underlying failure reason. -/
theorem synthesize_fallback_contains_contributions
    (topic : String) (r0 : DebateRound) (rs : List DebateRound) (msg : String) :
    synthesize topic (r0 :: rs) (CallOutcome.failure msg)
        = createFallbackSynthesis topic (r0 :: rs) msg
    ∧ (∀ (m : String) (resp : AgentResponse), firstQualifying (r0 :: rs) m = some resp →
        strContains (createFallbackSynthesis topic (r0 :: rs) msg)
          ("- " ++ keyPoint resp ++ "\n") = true)
    ∧ strContains (createFallbackSynthesis topic (r0 :: rs) msg)
        ("Synthesis Error: " ++ msg) = true := by
  refine ⟨rfl, ?_, ?_⟩
  · intro m resp hfq
    unfold firstQualifying at hfq
    rw [find?_eq_head?_filter] at hfq
    have hkey : assocGet (collectContributions (r0 :: rs)) m
        = (((r0 :: rs).foldr (fun r acc => r.responses ++ acc) []).filter
            (fun r => r.model == m && qualifiesResp r)).map keyPoint := by
      unfold collectContributions
      rw [foldl_rounds_flatten, foldl_if_filter, assocGet_fold_qualifying]
      rw [filter_filter_merge]
      simp [assocGet]
    cases hfl : ((r0 :: rs).foldr (fun r acc => r.responses ++ acc) []).filter
        (fun r => r.model == m && qualifiesResp r) with
    | nil => rw [hfl] at hfq; simp at hfq
    | cons a t =>
      rw [hfl] at hfq hkey
      simp only [List.head?_cons, Option.some.injEq] at hfq
      rw [hfq] at hkey
      have hmem : (m, keyPoint resp :: t.map keyPoint) ∈ collectContributions (r0 :: rs) := by
        apply assocGet_mem m _ _ (by simpa using hkey) (by simp)
      have hrend : renderAgent (m, keyPoint resp :: t.map keyPoint)
          ∈ (collectContributions (r0 :: rs)).map renderAgent :=
        List.mem_map_of_mem renderAgent hmem
      have hin : strContains (concatAll ((collectContributions (r0 :: rs)).map renderAgent))
          ("- " ++ keyPoint resp ++ "\n") = true :=
        concatAll_contains _ _ _ hrend (renderAgent_contains_first m (keyPoint resp) _)
      apply strContains_via (createFallbackSynthesis topic (r0 :: rs) msg)
        (concatAll ((collectContributions (r0 :: rs)).map renderAgent))
        ("- " ++ keyPoint resp ++ "\n")
        (("Final Answer for: \"").data ++ (topic.data ++ (("\"\n\n").data
          ++ (("[Note: Automated synthesis failed, providing structured summary]\n\n").data
          ++ ("Key Perspectives:\n\n").data))))
        (("\nSynthesis Error: ").data ++ msg.data)
      · simp [createFallbackSynthesis, String.data_append, List.append_assoc]
      · exact hin
  · apply strContains_intro (createFallbackSynthesis topic (r0 :: rs) msg)
      ("Synthesis Error: " ++ msg)
      (("Final Answer for: \"").data ++ (topic.data ++ (("\"\n\n").data
        ++ (("[Note: Automated synthesis failed, providing structured summary]\n\n").data
        ++ (("Key Perspectives:\n\n").data
        ++ ((concatAll ((collectContributions (r0 :: rs)).map renderAgent)).data
        ++ [Char.ofNat 10]))))))
      []
    have hD : ("\nSynthesis Error: ").data
        = [Char.ofNat 10] ++ ("Synthesis Error: ").data := rfl
    simp [createFallbackSynthesis, String.data_append, List.append_assoc, hD]

theorem synthesize_fallback_contains_contributions_witness :
    strContains (createFallbackSynthesis "t"
        [⟨1, [⟨"deepseek", "Hello world", 0, none⟩, ⟨"gpt-5", "", 1, some "err"⟩], none⟩] "boom")
      ("- " ++ keyPoint ⟨"deepseek", "Hello world", 0, none⟩ ++ "\n") = true
    ∧ strContains (createFallbackSynthesis "t"
        [⟨1, [⟨"deepseek", "Hello world", 0, none⟩, ⟨"gpt-5", "", 1, some "err"⟩], none⟩] "boom")
      ("Synthesis Error: " ++ "boom") = true := by
  have h := synthesize_fallback_contains_contributions "t"
    ⟨1, [⟨"deepseek", "Hello world", 0, none⟩, ⟨"gpt-5", "", 1, some "err"⟩], none⟩ [] "boom"
  exact ⟨h.2.1 "deepseek" ⟨"deepseek", "Hello world", 0, none⟩ rfl, h.2.2⟩

theorem runLoop_append (cfg : DebateConfig) (O : DebateOracles) :
    ∀ (fuel : Nat) (rounds : List DebateRound) (la : Option ConvergenceAssessment),
      ∃ tail,
        (runLoop cfg O fuel rounds la).rounds = rounds ++ tail
        ∧ (∀ r ∈ tail, ∃ a, r.convergenceCheck = some a)
        ∧ (runLoop cfg O fuel rounds la).rounds.length ≤ max rounds.length cfg.maxRounds := by
  intro fuel
  induction fuel with
  | zero =>
    intro rounds la
    exact ⟨[], by simp [runLoop], by simp, by simp [runLoop, le_max_left]⟩
  | succ f ih =>
    intro rounds la
    by_cases hlt : rounds.length < cfg.maxRounds
    · unfold runLoop
      rw [if_pos hlt]
      by_cases hc : (roundAssessment cfg O rounds).isConverged
      · rw [if_pos hc]
        refine ⟨[appendedRound cfg O rounds], rfl, ?_, ?_⟩
        · intro r hr
          simp at hr
          subst hr
          exact ⟨_, rfl⟩
        · simp only [List.length_append, List.length_cons, List.length_nil]
          exact le_trans (by omega) (le_max_right rounds.length cfg.maxRounds)
      · rw [if_neg hc]
        obtain ⟨tail, ht, hall, hlen⟩ := ih (rounds ++ [appendedRound cfg O rounds])
          (some (roundAssessment cfg O rounds))
        refine ⟨appendedRound cfg O rounds :: tail, ?_, ?_, ?_⟩
        · rw [ht]
          simp
        · intro r hr
          rcases List.mem_cons.mp hr with h | h
          · subst h
            exact ⟨_, rfl⟩
          · exact hall r h
        · have h1 : (rounds ++ [appendedRound cfg O rounds]).length = rounds.length + 1 := by
            simp
          rw [h1] at hlen
          have h2 : max (rounds.length + 1) cfg.maxRounds = cfg.maxRounds := max_eq_right hlt
          rw [h2] at hlen
          exact le_trans hlen (le_max_right _ _)
    · unfold runLoop
      rw [if_neg hlt]
      exact ⟨[], by simp, by simp, by simp [le_max_left]⟩

theorem runLoop_converged_invariant (cfg : DebateConfig) (O : DebateOracles) :
    ∀ (fuel : Nat) (rounds : List DebateRound) (la : Option ConvergenceAssessment),
      (∀ r ∈ rounds, ∃ a, r.convergenceCheck = some a ∧ a.isConverged = false) →
      ((runLoop cfg O fuel rounds la).achieved = false →
        ∀ r ∈ (runLoop cfg O fuel rounds la).rounds,
          ∃ a, r.convergenceCheck = some a ∧ a.isConverged = false)
      ∧ ((runLoop cfg O fuel rounds la).achieved = true →
        ∃ pre last a, (runLoop cfg O fuel rounds la).rounds = pre ++ [last]
          ∧ (∀ r ∈ pre, ∃ a2, r.convergenceCheck = some a2 ∧ a2.isConverged = false)
          ∧ last.convergenceCheck = some a ∧ a.isConverged = true
          ∧ (runLoop cfg O fuel rounds la).lastAssessment = some a) := by
  intro fuel
  induction fuel with
  | zero =>
    intro rounds la hinv
    refine ⟨fun _ => by simpa [runLoop] using hinv, fun hach => ?_⟩
    simp [runLoop] at hach
  | succ f ih =>
    intro rounds la hinv
    by_cases hlt : rounds.length < cfg.maxRounds
    · by_cases hc : (roundAssessment cfg O rounds).isConverged
      · have hres : runLoop cfg O (f + 1) rounds la
            = { rounds := rounds ++ [appendedRound cfg O rounds], achieved := true,
                lastAssessment := some (roundAssessment cfg O rounds) } := by
          unfold runLoop
          rw [if_pos hlt, if_pos hc]
        rw [hres]
        refine ⟨fun h => by simp at h, fun _ => ?_⟩
        exact ⟨rounds, appendedRound cfg O rounds, roundAssessment cfg O rounds,
          rfl, hinv, rfl, by simpa using hc, rfl⟩
      · have hres : runLoop cfg O (f + 1) rounds la
            = runLoop cfg O f (rounds ++ [appendedRound cfg O rounds])
                (some (roundAssessment cfg O rounds)) := by
          conv_lhs => rw [runLoop]
          rw [if_pos hlt, if_neg hc]
        rw [hres]
        have hinv2 : ∀ r ∈ rounds ++ [appendedRound cfg O rounds],
            ∃ a, r.convergenceCheck = some a ∧ a.isConverged = false := by
          intro r hr
          rcases List.mem_append.mp hr with h | h
          · exact hinv r h
          · simp at h
            subst h
            exact ⟨roundAssessment cfg O rounds, rfl, by simpa using hc⟩
        exact ih _ _ hinv2
    · have hres : runLoop cfg O (f + 1) rounds la
          = { rounds := rounds, achieved := false, lastAssessment := la } := by
        unfold runLoop
        rw [if_neg hlt]
      rw [hres]
      exact ⟨fun _ => hinv, fun hach => by simp at hach⟩

/-- C10: one `runDebate` invocation leaves the session's identity and
configuration untouched; the round list is only ever appended to (the prior
rounds are preserved verbatim) and every appended round has its
convergenceCheck set by the orchestrator loop; the stored final answer is
exactly the pure synthesis of the final round history and the status is set
to completed — the moderator and synthesizer are embedded as read-only
functions of the rounds (their sources never write to the session), so every
mutation of the session happens in the `runDebate` loop itself. -/
theorem runDebate_frame (s : DebateSession) (O : DebateOracles) :
    (runDebate s O).session.id = s.id
    ∧ (runDebate s O).session.config = s.config
    ∧ (∃ tail, (runDebate s O).session.rounds = s.rounds ++ tail
        ∧ ∀ r ∈ tail, ∃ a, r.convergenceCheck = some a)
    ∧ (runDebate s O).session.status = DebateStatus.completed
    ∧ (runDebate s O).session.finalAnswer
        = some (synthesize s.config.topic (runDebate s O).session.rounds O.synth)
    ∧ (runDebate s O).totalRounds = (runDebate s O).session.rounds.length := by
  obtain ⟨tail, ht, hall, -⟩ := runLoop_append s.config O s.config.maxRounds s.rounds none
  exact ⟨rfl, rfl, ⟨tail, ht, hall⟩, rfl, rfl, rfl⟩

/-- C1: a `runDebate` run on a fresh session with a valid configuration
executes rounds only while below maxRounds and unconverged: the total round
count never exceeds the configured maxRounds, the final status is completed,
every round except possibly the last carries a non-converged assessment (a
converged assessment exits the loop immediately), and the result's
convergenceAchieved flag is true exactly when the last round's attached
assessment reported convergence — i.e. the stop was via convergence rather
than max-rounds exhaustion. -/
theorem runDebate_loop_invariants (s : DebateSession) (O : DebateOracles)
    (_hv : validateDebateConfigOk s.config = true) (h0 : s.rounds = []) :
    (runDebate s O).totalRounds ≤ s.config.maxRounds
    ∧ (runDebate s O).session.status = DebateStatus.completed
    ∧ (∀ i : Nat, i + 1 < (runDebate s O).session.rounds.length →
        ∃ r a, (runDebate s O).session.rounds[i]? = some r
          ∧ r.convergenceCheck = some a ∧ a.isConverged = false)
    ∧ ((runDebate s O).convergenceAchieved = true ↔
        ∃ last a, (runDebate s O).session.rounds.getLast? = some last
          ∧ last.convergenceCheck = some a ∧ a.isConverged = true) := by
  have hinv0 : ∀ r ∈ s.rounds, ∃ a, r.convergenceCheck = some a ∧ a.isConverged = false := by
    rw [h0]
    simp
  obtain ⟨tail, ht, hall, hlen⟩ := runLoop_append s.config O s.config.maxRounds s.rounds none
  have hloop := runLoop_converged_invariant s.config O s.config.maxRounds s.rounds none hinv0
  refine ⟨?_, rfl, ?_, ?_⟩
  · show (runLoop s.config O s.config.maxRounds s.rounds none).rounds.length ≤ s.config.maxRounds
    have hl0 : s.rounds.length = 0 := by rw [h0]; rfl
    rw [hl0] at hlen
    simpa using hlen
  · intro i hi
    have hi2 : i < (runLoop s.config O s.config.maxRounds s.rounds none).rounds.length := by
      exact Nat.lt_of_succ_lt hi
    have hx : (runLoop s.config O s.config.maxRounds s.rounds none).rounds[i]?
        = some ((runLoop s.config O s.config.maxRounds s.rounds none).rounds[i]) :=
      List.getElem?_eq_getElem hi2
    cases hach : (runLoop s.config O s.config.maxRounds s.rounds none).achieved with
    | false =>
      obtain ⟨a, ha⟩ := hloop.1 hach _ (List.getElem?_mem hx)
      exact ⟨_, a, hx, ha.1, ha.2⟩
    | true =>
      obtain ⟨pre, last, a, hrounds, hpre, hlast, hconv, hla⟩ := hloop.2 hach
      have hplen : (runLoop s.config O s.config.maxRounds s.rounds none).rounds.length
          = pre.length + 1 := by
        rw [hrounds]
        simp
      have hipre : i < pre.length := by
        have hi3 : i + 1 < (runLoop s.config O s.config.maxRounds s.rounds none).rounds.length :=
          hi
        rw [hplen] at hi3
        omega
      have hxp : (runLoop s.config O s.config.maxRounds s.rounds none).rounds[i]? = pre[i]? := by
        rw [hrounds]
        exact List.getElem?_append_left hipre
      have hxe : pre[i]? = some pre[i] := List.getElem?_eq_getElem hipre
      obtain ⟨a2, ha2⟩ := hpre _ (List.getElem?_mem hxe)
      refine ⟨pre[i], a2, ?_, ha2.1, ha2.2⟩
      show (runLoop s.config O s.config.maxRounds s.rounds none).rounds[i]? = some pre[i]
      rw [hxp, hxe]
  · constructor
    · intro hach
      obtain ⟨pre, last, a, hrounds, hpre, hlast, hconv, hla⟩ := hloop.2 hach
      refine ⟨last, a, ?_, hlast, hconv⟩
      show (runLoop s.config O s.config.maxRounds s.rounds none).rounds.getLast? = some last
      rw [hrounds]
      simp
    · rintro ⟨last, a, hl, hcc, hconv⟩
      by_contra hach
      have hach2 : (runLoop s.config O s.config.maxRounds s.rounds none).achieved = false :=
        (Bool.not_eq_true _).mp hach
      have hmem : last ∈ (runLoop s.config O s.config.maxRounds s.rounds none).rounds := by
        obtain ⟨hne, heq⟩ := List.mem_getLast?_eq_getLast (Option.mem_def.mpr hl)
        rw [heq]
        exact List.getLast_mem hne
      obtain ⟨a2, ha2c, ha2f⟩ := hloop.1 hach2 last hmem
      rw [hcc] at ha2c
      obtain rfl : a = a2 := by simpa using ha2c
      rw [hconv] at ha2f
      simp at ha2f

theorem runDebate_loop_invariants_witness :
    (runDebate wSession1 wOracles1).totalRounds ≤ wSession1.config.maxRounds
    ∧ (runDebate wSession1 wOracles1).session.status = DebateStatus.completed
    ∧ (∀ i : Nat, i + 1 < (runDebate wSession1 wOracles1).session.rounds.length →
        ∃ r a, (runDebate wSession1 wOracles1).session.rounds[i]? = some r
          ∧ r.convergenceCheck = some a ∧ a.isConverged = false)
    ∧ ((runDebate wSession1 wOracles1).convergenceAchieved = true ↔
        ∃ last a, (runDebate wSession1 wOracles1).session.rounds.getLast? = some last
          ∧ last.convergenceCheck = some a ∧ a.isConverged = true) :=
  runDebate_loop_invariants wSession1 wOracles1 (by decide) rfl

/-- C4 (code bug): `Synthesizer.synthesize` checks `if (!content) throw`
before trimming, so a successful synthesis reply consisting of a single
space passes the falsy-content check and is then trimmed to the empty
string: the run completes with finalAnswer = some "", an empty final
answer — while, as the claim says, the zero-round path and the fallback
path do return non-empty text.  The guard shows the code intends a
non-empty answer; trimming after the check defeats it. -/
theorem runDebate_whitespace_synthesis_empty_finalAnswer :
    (runDebate wSession1 wOraclesWs).session.status = DebateStatus.completed
    ∧ (runDebate wSession1 wOraclesWs).session.finalAnswer = some ""
    ∧ (runDebate wSession1 wOraclesWs).session.rounds.length = 3
    ∧ synthesize "topic" [] (CallOutcome.success (some " "))
        = "No debate rounds available for topic: \"topic\". Unable to provide a synthesized answer."
    ∧ createFallbackSynthesis "topic" [⟨1, [⟨"deepseek", "hi", 0, none⟩], none⟩] "boom" ≠ "" := by
  refine ⟨rfl, ?_, ?_, rfl, by decide⟩
  · rfl
  · rfl

end Debate
